import Mathlib

/-!
Verification development for the llama-cpp-tools call-discovery-and-dispatch
engine (`include/llama_cpp_tools/tool_registry.h`, `src/tool_registry.cpp`).

The C++ code is shallowly embedded: `nlohmann::json` values become the `Json`
inductive, handlers become Lean functions `Json → Except String Json` (a
thrown C++ exception is modelled as `Except.error` carrying the description
string `e.what()`), `std::async` futures in the concurrent dispatch path are
modelled as deferred pure computations joined in launch order, and the
byte-stream chunk source of the streaming orchestrator is modelled as the
list of chunks it yields before returning `false`.
-/

/-- Model of `nlohmann::json` values.  Numbers are restricted to integers:
no claim under verification depends on floating-point values. -/
inductive Json where
  | null : Json
  | bool : Bool → Json
  | num : Int → Json
  | str : String → Json
  | arr : List Json → Json
  | obj : List (String × Json) → Json

/-- First-match association-list lookup (models `std::map::find` /
`json::find` on an object whose keys are unique). -/
def lookupField {α : Type} : List (String × α) → String → Option α
  | [], _ => none
  | (k, v) :: rest, key => if k = key then some v else lookupField rest key

/-- Field lookup on a json value: `some` only for objects holding the key. -/
def Json.find? : Json → String → Option Json
  | .obj fs, key => lookupField fs key
  | _, _ => none

/-- Model of `json::contains` (false on non-objects). -/
def Json.contains (j : Json) (key : String) : Bool :=
  (j.find? key).isSome

/-- Model of `operator[]` on an object; only ever used under a
`contains` guard, so the `null` default is never observable. -/
def Json.get (j : Json) (key : String) : Json :=
  (j.find? key).getD .null

def Json.isObj : Json → Bool
  | .obj _ => true
  | _ => false

def Json.isArr : Json → Bool
  | .arr _ => true
  | _ => false

/-- Elements of an array value (used only under `isArr` guards). -/
def Json.elems : Json → List Json
  | .arr xs => xs
  | _ => []

/-- Model of nlohmann range-`for` over a json value: arrays iterate their
elements, objects iterate their mapped values, `null` is an empty range, and
any primitive is a one-element range containing itself. -/
def Json.iter : Json → List Json
  | .arr xs => xs
  | .obj fs => fs.map (fun f => f.2)
  | .null => []
  | j => [j]

/-- Model of `json::value(key, default)` at type `std::string`: returns the
default when the key is absent, the stored string when present, and throws
`type_error.302` when the stored value is not textual or `type_error.306`
when the receiver is not an object (nlohmann behaviour). -/
def Json.valueStr (j : Json) (key dflt : String) : Except String String :=
  match j with
  | .obj fs =>
    match lookupField fs key with
    | none => .ok dflt
    | some (.str s) => .ok s
    | some _ => .error "type_error.302: type must be string"
  | _ => .error "type_error.306: cannot use value() with this type"

-- ---------------------------------------------------------------------------
-- Tool registry (tool_registry.h)
-- ---------------------------------------------------------------------------

/-- A registered handler: arguments to a result, or a thrown failure. -/
def ToolHandler : Type := Json → Except String Json

/-- The registry state: `tools_` and `schemas_` maps of `ToolRegistry`. -/
structure ToolRegistry where
  tools : List (String × ToolHandler)
  schemas : List (String × Json)

/-- Model of `std::map::emplace`: inserts only when the key is absent;
when the key is already present the map is left unchanged. -/
def mapEmplace {α : Type} (m : List (String × α)) (k : String) (v : α) :
    List (String × α) :=
  match lookupField m k with
  | some _ => m
  | none => m ++ [(k, v)]

/-- Model of `ToolRegistry::register_tool` (header): `tools_.emplace` and
`schemas_.emplace`. -/
def register_tool (reg : ToolRegistry) (name : String) (handler : ToolHandler)
    (schema : Json) : ToolRegistry :=
  { tools := mapEmplace reg.tools name handler
    schemas := mapEmplace reg.schemas name schema }

/-- Model of `ToolRegistry::invoke`: throws `Tool not found` when the name is
unregistered, otherwise runs the handler (whose own failure propagates). -/
def ToolRegistry.invoke (reg : ToolRegistry) (name : String) (args : Json) :
    Except String Json :=
  match lookupField reg.tools name with
  | none => .error ("Tool not found: " ++ name)
  | some h => h args

-- ---------------------------------------------------------------------------
-- Model of json::parse (third-party nlohmann parser, modelled on the
-- fragment relevant to the claims: null/true/false, integers, strings with
-- basic escapes, arrays, objects; trailing non-whitespace is a parse error).
-- ---------------------------------------------------------------------------

/-- Whitespace recognized by the lexer of the `json::parse` model. -/
def isSpaceChar (c : Char) : Bool :=
  c = ' ' ∨ c = '\n' ∨ c = '\t' ∨ c = '\r'

/-- Drop leading whitespace. -/
def dropSpaces : List Char → List Char
  | [] => []
  | c :: r => if isSpaceChar c then dropSpaces r else c :: r

/-- Recognize one of the literal keywords of the value grammar at the head
of the input. -/
def litToken (s : List Char) : Option (Json × List Char) :=
  if List.isPrefixOf "null".data s then some (.null, s.drop 4)
  else if List.isPrefixOf "true".data s then some (.bool true, s.drop 4)
  else if List.isPrefixOf "false".data s then some (.bool false, s.drop 5)
  else none

/-- Decode a backslash escape of the string grammar: the self-escaping
characters map to themselves, the named control escapes to their control
characters, anything else is rejected. -/
def decodeEsc (e : Char) : Option Char :=
  if e = '"' ∨ e = '\\' ∨ e = '/' then some e
  else if e = 'n' then some '\n'
  else if e = 't' then some '\t'
  else if e = 'r' then some '\r'
  else none

/-- Body of a string literal after the opening quote: returns the decoded
characters and the input after the closing quote. -/
def strBody (acc : List Char) : List Char → Option (List Char × List Char)
  | [] => none
  | '"' :: r => some (acc, r)
  | '\\' :: [] => none
  | '\\' :: e :: r =>
    match decodeEsc e with
    | some d => strBody (acc ++ [d]) r
    | none => none
  | c :: r => strBody (acc ++ [c]) r

/-- Consume a run of decimal digits, accumulating their value. -/
def digitsAcc (acc : Nat) : List Char → Nat × List Char
  | [] => (acc, [])
  | c :: r =>
    if c.isDigit then digitsAcc (acc * 10 + (c.toNat - '0'.toNat)) r
    else (acc, c :: r)

def numToken : List Char → Option (Json × List Char)
  | '-' :: c :: r =>
    if c.isDigit then
      let p := digitsAcc 0 (c :: r)
      some (.num (-(p.1 : Int)), p.2)
    else none
  | c :: r =>
    if c.isDigit then
      let p := digitsAcc 0 (c :: r)
      some (.num (p.1 : Int), p.2)
    else none
  | [] => none

/-- Mode of the fueled parser: a single value, the items of an array after
the opening bracket, or the items of an object after the opening brace. -/
inductive PMode where
  | val : PMode
  | arrItems : List Json → PMode
  | objItems : List (String × Json) → PMode

/-- Fueled recursive-descent core of the `json::parse` model. -/
def pRun : Nat → PMode → List Char → Option (Json × List Char)
  | 0, _, _ => none
  | Nat.succ f, .val, input =>
    match litToken (dropSpaces input) with
    | some p => some p
    | none =>
    match dropSpaces input with
    | '"' :: r =>
      match strBody [] r with
      | some p => some (.str (String.mk p.1), p.2)
      | none => none
    | '[' :: r =>
      match dropSpaces r with
      | ']' :: rr => some (.arr [], rr)
      | _ => pRun f (.arrItems []) r
    | '{' :: r =>
      match dropSpaces r with
      | '}' :: rr => some (.obj [], rr)
      | _ => pRun f (.objItems []) r
    | s => numToken s
  | Nat.succ f, .arrItems acc, input =>
    match pRun f .val input with
    | none => none
    | some (v, rest) =>
      match dropSpaces rest with
      | ',' :: rr => pRun f (.arrItems (acc ++ [v])) rr
      | ']' :: rr => some (.arr (acc ++ [v]), rr)
      | _ => none
  | Nat.succ f, .objItems acc, input =>
    match dropSpaces input with
    | '"' :: r =>
      match strBody [] r with
      | none => none
      | some (key, rest) =>
        match dropSpaces rest with
        | ':' :: rr =>
          match pRun f .val rr with
          | none => none
          | some (v, vr) =>
            match dropSpaces vr with
            | ',' :: r2 => pRun f (.objItems (acc ++ [(String.mk key, v)])) r2
            | '}' :: r2 => some (.obj (acc ++ [(String.mk key, v)]), r2)
            | _ => none
        | _ => none
    | _ => none

/-- Model of `json::parse` on a character sequence: exactly one value with
only trailing whitespace allowed; anything else is a parse failure
(`none` models a thrown `nlohmann::json::parse_error`). -/
def parseJson (s : List Char) : Option Json :=
  match pRun (2 * s.length + 4) .val s with
  | some (v, rest) => if dropSpaces rest = [] then some v else none
  | none => none

-- ---------------------------------------------------------------------------
-- Incremental value extractor (extract_complete_json_values)
-- ---------------------------------------------------------------------------

/-- State of the inner scanning loop of `extract_complete_json_values`:
bracket nesting depth of the opener's family, whether the scan is inside a
string literal, and whether the previous in-string character was a
backslash. -/
structure ScanState where
  depth : Int
  inString : Bool
  escape : Bool

/-- One character transition of the inner scanning loop, mirroring the
branch structure of the C++ `for` loop body (string state first; outside a
string the checks are quote, opener, closer, in that order). -/
def scanStep (opener closer : Char) (st : ScanState) (c : Char) : ScanState :=
  if st.inString then
    if st.escape then { st with escape := false }
    else if c = '\\' then { st with escape := true }
    else if c = '"' then { st with inString := false }
    else st
  else
    if c = '"' then { st with inString := true }
    else if c = opener then { st with depth := st.depth + 1 }
    else if c = closer then { st with depth := st.depth - 1 }
    else st

/-- The loop exit condition: outside a string, the character is the closer
(reached through the quote and opener checks failing) and decrementing the
depth returns it to zero. -/
def scanClosed (opener closer : Char) (st : ScanState) (c : Char) : Bool :=
  !st.inString && !(c = '"') && !(c = opener) && (c = closer) && (st.depth = 1)

/-- Scan for the closer completing the value; `some p` is the index of that
closer in the scanned list, `none` means the data ran out first (the
"need more data" case). -/
def scanClose (opener closer : Char) (st : ScanState) : List Char → Option Nat
  | [] => none
  | c :: rest =>
    if scanClosed opener closer st c then some 0
    else (scanClose opener closer (scanStep opener closer st c) rest).map
      (fun p => p + 1)

/-- One pass of the outer loop of `extract_complete_json_values`: skip
non-opener noise, then scan from the first opener (which the C++ loop itself
processes, bringing the depth to 1).  `some (v, rem)` is the first complete
value and the buffer remaining after erasing everything up to and including
it; `none` means no complete value is present (the buffer is left alone). -/
def extractStep : List Char → Option (List Char × List Char)
  | [] => none
  | c :: rest =>
    if c = '{' ∨ c = '[' then
      let closer := if c = '{' then '}' else ']'
      match scanClose c closer ⟨1, false, false⟩ rest with
      | some p => some (c :: rest.take (p + 1), rest.drop (p + 1))
      | none => none
    else extractStep rest

/-- Fueled form of the outer extraction loop (the fuel is an upper bound on
the number of emissions; `extract_complete_json_values` supplies the buffer
length, which `extractStep_shrinks` shows is always sufficient, so the zero
fuel branch is never the deciding one — see `extract_eq`). -/
def extractFuel : Nat → List Char → List (List Char) × List Char
  | 0, buffer => ([], buffer)
  | Nat.succ f, buffer =>
    match extractStep buffer with
    | none => ([], buffer)
    | some (v, rem) =>
      let rest := extractFuel f rem
      (v :: rest.1, rest.2)

/-- Model of `extract_complete_json_values`: the emitted complete values and
the residual buffer. -/
def extract_complete_json_values (buffer : List Char) :
    List (List Char) × List Char :=
  extractFuel buffer.length buffer


-- ---------------------------------------------------------------------------
-- Call normalizer (anonymous-namespace helpers of tool_registry.cpp)
-- ---------------------------------------------------------------------------

/-- Model of `parse_function_arguments`: parse a textual `arguments` field,
recovering from a parse failure with an empty object; pass objects and
arrays through; anything else (or an absent field) becomes an empty
object. -/
def parse_function_arguments (func : Json) : Json :=
  match func.find? "arguments" with
  | none => .obj []
  | some a =>
    match a with
    | .str s =>
      match parseJson s.data with
      | some v => v
      | none => .obj []
    | .obj fs => .obj fs
    | .arr xs => .arr xs
    | _ => .obj []

/-- The `tool_calls` loop of `collect_tool_calls_from_node`, threading the
`out` vector: each element's `function` field (or the element itself)
supplies the name — `value` may throw — and nonempty names are appended. -/
def collectTCAcc (acc : List (String × Json)) :
    List Json → Except String (List (String × Json))
  | [] => .ok acc
  | tc :: rest =>
    let func := if tc.contains "function" then tc.get "function" else tc
    match func.valueStr "name" "" with
    | .error e => .error e
    | .ok name =>
      collectTCAcc
        (if name = "" then acc
         else acc ++ [(name, parse_function_arguments func)]) rest

/-- Model of `collect_tool_calls_from_node`: the list convention
(`tool_calls`) first, then the singular convention (`function_call`). -/
def collect_tool_calls_from_node (node : Json)
    (out : List (String × Json)) : Except String (List (String × Json)) :=
  let afterTC :=
    if node.contains "tool_calls" && (node.get "tool_calls").isArr then
      collectTCAcc out (node.get "tool_calls").elems
    else .ok out
  match afterTC with
  | .error e => .error e
  | .ok out1 =>
    if node.contains "function_call" && (node.get "function_call").isObj then
      match (node.get "function_call").valueStr "name" "" with
      | .error e => .error e
      | .ok name =>
        .ok (if name = "" then out1
             else out1 ++
               [(name, parse_function_arguments (node.get "function_call"))])
    else .ok out1

/-- Model of `pick_message_like`: prefer `message`, else `delta`, else the
entry itself. -/
def pick_message_like (j : Json) : Json :=
  if j.isObj then
    if j.contains "message" then j.get "message"
    else if j.contains "delta" then j.get "delta"
    else j
  else j

/-- The discovery loop of `process_remote_response_and_execute`: collect
calls from each entry's message-like node, in entry order. -/
def discoverEntriesAcc (out : List (String × Json)) :
    List Json → Except String (List (String × Json))
  | [] => .ok out
  | e :: rest =>
    match collect_tool_calls_from_node (pick_message_like e) out with
    | .error er => .error er
    | .ok out1 => discoverEntriesAcc out1 rest

/-- Entry normalization of `process_remote_response_and_execute`: an object
with `choices` contributes that field, an array is used as is, anything else
becomes a one-entry array. -/
def responseEntries (resp : Json) : Json :=
  if resp.isObj && resp.contains "choices" then resp.get "choices"
  else if resp.isArr then resp
  else .arr [resp]

/-- Phase 1 of `process_remote_response_and_execute`: discover all tool
calls, in order. -/
def discoverResponse (resp : Json) :
    Except String (List (String × Json)) :=
  discoverEntriesAcc [] (responseEntries resp).iter

-- ---------------------------------------------------------------------------
-- Dispatcher (phase 2 of process_remote_response_and_execute)
-- ---------------------------------------------------------------------------

/-- Model of `ToolRegistry::ExecutionResult`; a default-constructed result
holds a null json and an empty error string. -/
structure ExecutionResult where
  tool_name : String
  arguments : Json
  result : Json
  error : String

/-- The sequential-path loop body: invoke and catch, capturing a thrown
failure in the `error` field and leaving `result` at its null default. -/
def execOne (reg : ToolRegistry) (name : String) (args : Json) :
    ExecutionResult :=
  match reg.invoke name args with
  | .ok r => { tool_name := name, arguments := args, result := r, error := "" }
  | .error e =>
    { tool_name := name, arguments := args, result := .null, error := e }

/-- The sequential execution loop. -/
def runSequential (reg : ToolRegistry) :
    List (String × Json) → List ExecutionResult
  | [] => []
  | c :: rest => execOne reg c.1 c.2 :: runSequential reg rest

/-- The lambda launched by `std::async` in the concurrent path: same
invoke-and-catch body, computed independently of every other call. -/
def concurrentTask (reg : ToolRegistry) (name : String) (args : Json) :
    ExecutionResult :=
  match reg.invoke name args with
  | .ok r => { tool_name := name, arguments := args, result := r, error := "" }
  | .error e =>
    { tool_name := name, arguments := args, result := .null, error := e }

/-- The concurrent path: one future per call, joined in launch order
(`for (auto& f : futs) results.push_back(f.get())`). -/
def runConcurrent (reg : ToolRegistry) (calls : List (String × Json)) :
    List ExecutionResult :=
  calls.map (fun c => concurrentTask reg c.1 c.2)

/-- Model of `ToolRegistry::process_remote_response_and_execute`: discover
all calls (where a discovery-phase `value` failure propagates), then execute
them sequentially or concurrently. -/
def process_remote_response_and_execute (reg : ToolRegistry) (resp : Json)
    (concurrent : Bool) : Except String (List ExecutionResult) :=
  match discoverResponse resp with
  | .error e => .error e
  | .ok calls =>
    .ok (if concurrent then runConcurrent reg calls
         else runSequential reg calls)

-- ---------------------------------------------------------------------------
-- Streaming orchestrator (process_streaming_response_and_execute)
-- ---------------------------------------------------------------------------

/-- Outcomes delivered for one extracted blob: a parse failure or a
discovery-phase failure inside `process_remote_response_and_execute` is
swallowed by the surrounding `catch`, producing no outcomes. -/
def blobOutcomes (reg : ToolRegistry) (concurrent : Bool) (s : List Char) :
    List ExecutionResult :=
  match parseJson s with
  | none => []
  | some obj =>
    match process_remote_response_and_execute reg obj concurrent with
    | .ok rs => rs
    | .error _ => []

/-- The chunk-consumption loop: append the chunk, extract completed values,
dispatch each; when the source is exhausted, one final extraction pass over
the remaining buffer. -/
def streamLoop (reg : ToolRegistry) (concurrent : Bool) (buffer : List Char) :
    List (List Char) → List ExecutionResult
  | [] =>
    ((extract_complete_json_values buffer).1).flatMap
      (blobOutcomes reg concurrent)
  | chunk :: chunks =>
    let step := extract_complete_json_values (buffer ++ chunk)
    step.1.flatMap (blobOutcomes reg concurrent) ++
      streamLoop reg concurrent step.2 chunks

/-- Model of `ToolRegistry::process_streaming_response_and_execute`, with the
chunk source modelled as the list of chunks it yields before returning
false, and the `on_result` callback as ordered collection. -/
def process_streaming_response_and_execute (reg : ToolRegistry)
    (chunks : List (List Char)) (concurrent : Bool) : List ExecutionResult :=
  streamLoop reg concurrent [] chunks

/-- Byte-at-a-time feeding of the extractor (one-character chunks, an
extraction pass after every append), collecting everything emitted. -/
def feedBytesLoop (buffer : List Char) :
    List Char → List (List Char) × List Char
  | [] => ([], buffer)
  | b :: bs =>
    let step := extract_complete_json_values (buffer ++ [b])
    let rest := feedBytesLoop step.2 bs
    (step.1 ++ rest.1, rest.2)

/-- Feed a text to the extractor one byte at a time, starting empty. -/
def feedBytes (s : List Char) : List (List Char) × List Char :=
  feedBytesLoop [] s

-- ---------------------------------------------------------------------------
-- Direct single-response path (ToolRegistry::handle_tool_call_response)
-- ---------------------------------------------------------------------------

/-- The body run at the first `function`-bearing `tool_calls` element of the
direct path: `value` lookups (which may throw), an unguarded `json::parse`
of the textual arguments (whose failure therefore propagates), then
`invoke`. -/
def handleFuncCall (reg : ToolRegistry) (func : Json) : Except String Json :=
  match func.valueStr "name" "" with
  | .error e => .error e
  | .ok name =>
    match func.valueStr "arguments" "\x7b\x7d" with
    | .error e => .error e
    | .ok argsStr =>
      match parseJson argsStr.data with
      | none => .error "parse_error: malformed arguments text"
      | some args => reg.invoke name args

/-- The inner `tool_calls` loop of `handle_tool_call_response`: skip
elements without a `function` field; return at the first one that has it. -/
def handleTCLoop (reg : ToolRegistry) :
    List Json → Option (Except String Json)
  | [] => none
  | tc :: rest =>
    if tc.contains "function" then some (handleFuncCall reg (tc.get "function"))
    else handleTCLoop reg rest

/-- The outer entry loop of `handle_tool_call_response`: only entries with a
`message` field are examined (the source's second, duplicated branch also
tests `message`, so `delta` entries are never recognized), and only their
`tool_calls` arrays. -/
def handleEntriesLoop (reg : ToolRegistry) : List Json → Except String Json
  | [] => .error "No tool call found in response"
  | choice :: rest =>
    if choice.contains "message" then
      let msg := choice.get "message"
      if msg.contains "tool_calls" && (msg.get "tool_calls").isArr then
        match handleTCLoop reg (msg.get "tool_calls").elems with
        | some r => r
        | none => handleEntriesLoop reg rest
      else handleEntriesLoop reg rest
    else handleEntriesLoop reg rest

/-- Entry normalization of `handle_tool_call_response` (unlike the batch
path, a non-object response is used as the entries value directly). -/
def handleEntries (resp : Json) : Json :=
  if resp.isObj then
    if resp.contains "choices" then resp.get "choices" else .arr [resp]
  else resp

/-- Model of `ToolRegistry::handle_tool_call_response`. -/
def handle_tool_call_response (reg : ToolRegistry) (resp : Json) :
    Except String Json :=
  handleEntriesLoop reg (handleEntries resp).iter

/-- The `function` field of the first `function`-bearing element of a
`tool_calls` list. -/
def firstFuncInTCs : List Json → Option Json
  | [] => none
  | tc :: rest =>
    if tc.contains "function" then some (tc.get "function")
    else firstFuncInTCs rest

/-- The first direct-path call of an entry list: the first
`function`-bearing `tool_calls` element under an entry with a `message`
field, in entry order. -/
def firstDirectCallEntries : List Json → Option Json
  | [] => none
  | choice :: rest =>
    if choice.contains "message" then
      let msg := choice.get "message"
      if msg.contains "tool_calls" && (msg.get "tool_calls").isArr then
        match firstFuncInTCs (msg.get "tool_calls").elems with
        | some f => some f
        | none => firstDirectCallEntries rest
      else firstDirectCallEntries rest
    else firstDirectCallEntries rest

/-- The call the direct path would act on, if any. -/
def firstDirectCall (resp : Json) : Option Json :=
  firstDirectCallEntries (handleEntries resp).iter

-- ---------------------------------------------------------------------------
-- Concrete fixtures used by witnesses and counterexamples
-- ---------------------------------------------------------------------------

/-- Demo handler: `echo(args) -> \x7b echoed: args.msg \x7d`. -/
def echoHandler : ToolHandler := fun args => .ok (.obj [("echoed", args.get "msg")])

/-- Demo handler that always throws. -/
def failHandler : ToolHandler := fun _ => .error "fail"

/-- Registry holding `echo` and a throwing `bad` handler. -/
def demoRegistry : ToolRegistry :=
  register_tool (register_tool ⟨[], []⟩ "echo" echoHandler (.obj []))
    "bad" failHandler (.obj [])

/-- Handler returning 1 (first registration in the C8 scenario). -/
def handlerOne : ToolHandler := fun _ => .ok (.num 1)

/-- Handler returning 2 (attempted re-registration in the C8 scenario). -/
def handlerTwo : ToolHandler := fun _ => .ok (.num 2)

/-- A registry in which the same name was registered twice. -/
def regTwice : ToolRegistry :=
  register_tool (register_tool ⟨[], []⟩ "t" handlerOne (.str "s1"))
    "t" handlerTwo (.str "s2")

/-- A response with three calls across both conventions and two entries:
`echo` and `ghost` through `message.tool_calls`, then `bad` through
`delta.function_call`. -/
def respMixed : Json :=
  .obj [("choices", .arr [
    .obj [("message", .obj [
      ("tool_calls", .arr [
        .obj [("function", .obj [("name", .str "echo"),
          ("arguments", .str "\x7b\"msg\":\"hi\"\x7d")])],
        .obj [("function", .obj [("name", .str "ghost")])]])])],
    .obj [("delta", .obj [
      ("function_call", .obj [("name", .str "bad")])])]])]

/-- The discovery order of `respMixed`. -/
def callsMixed : List (String × Json) :=
  [("echo", .obj [("msg", .str "hi")]), ("ghost", .obj []), ("bad", .obj [])]

/-- A response whose only call carries unparseable textual arguments. -/
def respBadArgs : Json :=
  .obj [("choices", .arr [
    .obj [("message", .obj [
      ("tool_calls", .arr [
        .obj [("function", .obj [("name", .str "echo"),
          ("arguments", .str "not json")])]])])]])]

/-- A response whose calls sit only under `delta` (both conventions). -/
def respDeltaOnly : Json :=
  .obj [("choices", .arr [
    .obj [("delta", .obj [
      ("tool_calls", .arr [.obj [("function", .obj [("name", .str "echo")])]]),
      ("function_call", .obj [("name", .str "echo")])])]])]

/-- A response whose message uses only the singular `function_call`
convention. -/
def respSingularOnly : Json :=
  .obj [("choices", .arr [
    .obj [("message", .obj [
      ("function_call", .obj [("name", .str "echo")])])]])]

/-- A complete object whose string value contains a closing brace. -/
def braceText : List Char := "\x7b\"a\":\"\x7d\"\x7d".data

-- ---------------------------------------------------------------------------
-- Extractor theory
-- ---------------------------------------------------------------------------

/-- A found closer lies inside the scanned list. -/
theorem scanClose_lt_length {opener closer : Char} {st : ScanState}
    {l : List Char} {p : Nat} (h : scanClose opener closer st l = some p) :
    p < l.length := by
  induction l generalizing st p with
  | nil => simp [scanClose] at h
  | cons c rest ih =>
    rw [scanClose] at h
    by_cases hc : scanClosed opener closer st c = true
    · simp [hc] at h
      simp only [List.length_cons]
      omega
    · simp [hc] at h
      obtain ⟨q, hq, hpq⟩ := h
      have := ih hq
      simp only [List.length_cons]
      omega

/-- Consuming a step strictly shrinks the buffer. -/
theorem extractStep_shrinks {buf v rem : List Char}
    (h : extractStep buf = some (v, rem)) : rem.length < buf.length := by
  induction buf with
  | nil => simp [extractStep] at h
  | cons c rest ih =>
    rw [extractStep] at h
    by_cases hc : (c = '{' ∨ c = '[')
    · simp only [if_pos hc] at h
      cases hs : scanClose c (if c = '{' then '}' else ']') ⟨1, false, false⟩ rest with
      | none => simp [hs] at h
      | some p =>
        simp [hs] at h
        have : rem = rest.drop (p + 1) := h.2.symm
        subst this
        simp only [List.length_drop, List.length_cons]
        have := scanClose_lt_length hs
        omega
    · simp only [if_neg hc] at h
      have := ih h
      simp only [List.length_cons]
      omega

/-- The fuel does not matter once it dominates the buffer length. -/
theorem extractFuel_congr :
    ∀ (f₁ f₂ : Nat) (buffer : List Char), buffer.length ≤ f₁ →
      buffer.length ≤ f₂ → extractFuel f₁ buffer = extractFuel f₂ buffer := by
  intro f₁
  induction f₁ with
  | zero =>
    intro f₂ buffer h1 _
    have : buffer = [] := List.length_eq_zero.mp (Nat.le_zero.mp h1)
    subst this
    cases f₂ with
    | zero => rfl
    | succ f => simp [extractFuel, extractStep]
  | succ f ih =>
    intro f₂ buffer h1 h2
    cases f₂ with
    | zero =>
      have : buffer = [] := List.length_eq_zero.mp (Nat.le_zero.mp h2)
      subst this
      simp [extractFuel, extractStep]
    | succ g =>
      rw [extractFuel, extractFuel]
      cases hs : extractStep buffer with
      | none => rfl
      | some vr =>
        obtain ⟨v, rem⟩ := vr
        have hlt := extractStep_shrinks hs
        have := ih g rem (by omega) (by omega)
        simp [this]

/-- Recursion equation of the extractor: emit the first complete value, erase
it, restart from the beginning of the remaining buffer; stop when no complete
value is present, leaving the buffer unchanged. -/
theorem extract_eq (buffer : List Char) :
    extract_complete_json_values buffer =
      match extractStep buffer with
      | none => ([], buffer)
      | some (v, rem) =>
        let rest := extract_complete_json_values rem
        (v :: rest.1, rest.2) := by
  unfold extract_complete_json_values
  cases hl : buffer.length with
  | zero =>
    have : buffer = [] := List.length_eq_zero.mp hl
    subst this
    simp [extractFuel, extractStep]
  | succ n =>
    rw [extractFuel]
    cases hs : extractStep buffer with
    | none => rfl
    | some vr =>
      obtain ⟨v, rem⟩ := vr
      have hlt := extractStep_shrinks hs
      rw [hl] at hlt
      have := extractFuel_congr n rem.length rem (by omega) (by omega)
      simp [this]

/-- Finding the closer is stable under appending more data: the scan never
looks past the closer it reports. -/
theorem scanClose_append {opener closer : Char} {st : ScanState}
    {l : List Char} {p : Nat} (ext : List Char)
    (h : scanClose opener closer st l = some p) :
    scanClose opener closer st (l ++ ext) = some p := by
  induction l generalizing st p with
  | nil => simp [scanClose] at h
  | cons c rest ih =>
    rw [scanClose] at h
    rw [List.cons_append, scanClose]
    by_cases hc : scanClosed opener closer st c = true
    · simp [hc] at h ⊢
      omega
    · simp [hc] at h ⊢
      obtain ⟨q, hq, hpq⟩ := h
      exact ⟨q, ih hq, hpq⟩

/-- The first emitted value is stable under appending more data; the erased
prefix is the same and the appended data survives in the residual buffer. -/
theorem extractStep_append {buf v rem : List Char} (ext : List Char)
    (h : extractStep buf = some (v, rem)) :
    extractStep (buf ++ ext) = some (v, rem ++ ext) := by
  induction buf with
  | nil => simp [extractStep] at h
  | cons c rest ih =>
    rw [extractStep] at h
    rw [List.cons_append, extractStep]
    by_cases hc : (c = '{' ∨ c = '[')
    · simp only [if_pos hc] at h ⊢
      cases hs : scanClose c (if c = '{' then '}' else ']') ⟨1, false, false⟩ rest with
      | none => simp [hs] at h
      | some p =>
        have hp : p + 1 ≤ rest.length := scanClose_lt_length hs
        rw [scanClose_append ext hs]
        simp only [hs, Option.some.injEq, Prod.mk.injEq] at h
        simp [List.take_append_of_le_length hp,
          List.drop_append_of_le_length hp, h.1, h.2]
    · simp only [if_neg hc] at h ⊢
      exact ih h

/-- The residual buffer left by an extraction pass holds no complete value. -/
theorem extract_residual_none (buffer : List Char) :
    extractStep (extract_complete_json_values buffer).2 = none := by
  rw [extract_eq]
  cases hs : extractStep buffer with
  | none =>
    simpa using hs
  | some vr =>
    obtain ⟨v, rem⟩ := vr
    have := extract_residual_none rem
    simpa using this
termination_by buffer.length
decreasing_by exact extractStep_shrinks hs

/-- Batch extraction decomposes over an append: first everything the old
buffer yields, then whatever the old residue plus the new data yields. -/
theorem extract_append (b e : List Char) :
    extract_complete_json_values (b ++ e) =
      ((extract_complete_json_values b).1 ++
        (extract_complete_json_values
          ((extract_complete_json_values b).2 ++ e)).1,
        (extract_complete_json_values
          ((extract_complete_json_values b).2 ++ e)).2) := by
  rw [extract_eq b]
  cases hs : extractStep b with
  | none =>
    simp
  | some vr =>
    obtain ⟨v, rem⟩ := vr
    rw [extract_eq (b ++ e), extractStep_append e hs]
    have := extract_append rem e
    simp [this]
termination_by b.length
decreasing_by exact extractStep_shrinks hs

/-- A buffer without an opener character yields nothing. -/
theorem extractStep_no_opener (buf : List Char)
    (h : ∀ c ∈ buf, ¬(c = '{' ∨ c = '[')) : extractStep buf = none := by
  induction buf with
  | nil => rfl
  | cons c rest ih =>
    rw [extractStep]
    rw [if_neg (h c (List.mem_cons_self c rest))]
    exact ih (fun d hd => h d (List.mem_cons_of_mem c hd))

-- ---------------------------------------------------------------------------
-- Helper lemmas
-- ---------------------------------------------------------------------------

/-- Lookup skips over a prefix that does not contain the key. -/
theorem lookupField_append {α : Type} {l : List (String × α)} {k : String}
    (l2 : List (String × α)) (h : lookupField l k = none) :
    lookupField (l ++ l2) k = lookupField l2 k := by
  induction l with
  | nil => simp
  | cons p rest ih =>
    rw [lookupField] at h
    rw [List.cons_append, lookupField]
    by_cases hk : p.1 = k
    · simp [hk] at h
    · simp only [if_neg hk] at h ⊢
      exact ih h

/-- The outcome always records the call's name. -/
theorem execOne_tool_name (reg : ToolRegistry) (name : String) (args : Json) :
    (execOne reg name args).tool_name = name := by
  rw [execOne]
  cases reg.invoke name args with
  | ok r => rfl
  | error e => rfl

/-- The async lambda computes exactly the sequential loop body. -/
theorem concurrentTask_eq_execOne (reg : ToolRegistry) (name : String)
    (args : Json) : concurrentTask reg name args = execOne reg name args := rfl

/-- The sequential loop is a map of the per-call execution. -/
theorem runSequential_eq_map (reg : ToolRegistry)
    (calls : List (String × Json)) :
    runSequential reg calls = calls.map (fun c => execOne reg c.1 c.2) := by
  induction calls with
  | nil => rfl
  | cons c rest ih => rw [runSequential, List.map_cons, ih]

/-- The concurrent path equals the sequential path, call for call. -/
theorem runConcurrent_eq_runSequential (reg : ToolRegistry)
    (calls : List (String × Json)) :
    runConcurrent reg calls = runSequential reg calls := by
  rw [runConcurrent, runSequential_eq_map]
  exact List.map_congr_left (fun c _ => concurrentTask_eq_execOne reg c.1 c.2)

/-- The `tool_calls` collection loop only appends to its accumulator. -/
theorem collectTCAcc_acc (l : List Json) :
    ∀ (ex acc : List (String × Json)),
      collectTCAcc (ex ++ acc) l =
        Except.map (fun t => ex ++ t) (collectTCAcc acc l) := by
  induction l with
  | nil => intro ex acc; simp [collectTCAcc, Except.map]
  | cons tc rest ih =>
    intro ex acc
    rw [collectTCAcc, collectTCAcc]
    cases hv : (if tc.contains "function" then tc.get "function"
        else tc).valueStr "name" "" with
    | error e => simp [hv, Except.map]
    | ok name =>
      by_cases hn : name = ""
      · simpa [hv, hn] using ih ex acc
      · simp only [hv, if_neg hn]
        rw [List.append_assoc]
        exact ih ex _

/-- `collect_tool_calls_from_node` only appends to its accumulator. -/
theorem collectNode_acc (node : Json) (ex acc : List (String × Json)) :
    collect_tool_calls_from_node node (ex ++ acc) =
      Except.map (fun t => ex ++ t)
        (collect_tool_calls_from_node node acc) := by
  rw [collect_tool_calls_from_node, collect_tool_calls_from_node]
  by_cases h1 : (node.contains "tool_calls" &&
      (node.get "tool_calls").isArr) = true
  · simp only [h1, if_pos]
    rw [collectTCAcc_acc]
    cases hc : collectTCAcc acc (node.get "tool_calls").elems with
    | error e => simp [Except.map]
    | ok out1 =>
      simp only [Except.map]
      by_cases h2 : (node.contains "function_call" &&
          (node.get "function_call").isObj) = true
      · simp only [h2, if_pos]
        cases hv : (node.get "function_call").valueStr "name" "" with
        | error e => simp [Except.map]
        | ok name =>
          by_cases hn : name = ""
          · simp [hn, Except.map]
          · simp [hn, Except.map, List.append_assoc]
      · simp [h2, Except.map]
  · simp only [Bool.not_eq_true] at h1
    simp only [h1, if_neg, Bool.false_eq_true, not_false_iff]
    by_cases h2 : (node.contains "function_call" &&
        (node.get "function_call").isObj) = true
    · simp only [h2, if_pos]
      cases hv : (node.get "function_call").valueStr "name" "" with
      | error e => simp [Except.map]
      | ok name =>
        by_cases hn : name = ""
        · simp [hn, Except.map]
        · simp [hn, Except.map, List.append_assoc]
    · simp [h2, Except.map]

/-- The discovery loop only appends to its accumulator. -/
theorem discoverEntriesAcc_acc (es : List Json) :
    ∀ (ex acc : List (String × Json)),
      discoverEntriesAcc (ex ++ acc) es =
        Except.map (fun t => ex ++ t) (discoverEntriesAcc acc es) := by
  induction es with
  | nil => intro ex acc; simp [discoverEntriesAcc, Except.map]
  | cons e rest ih =>
    intro ex acc
    rw [discoverEntriesAcc, discoverEntriesAcc]
    rw [collectNode_acc]
    cases hc : collect_tool_calls_from_node (pick_message_like e) acc with
    | error er => simp [Except.map]
    | ok out1 => simpa [Except.map] using ih ex out1

/-- A found textual field makes `value` return its content. -/
theorem valueStr_of_find_str {j : Json} {k s : String} (d : String)
    (h : j.find? k = some (.str s)) : j.valueStr k d = .ok s := by
  cases j with
  | obj fs =>
    rw [Json.valueStr]
    rw [Json.find?] at h
    rw [h]
  | null => simp [Json.find?] at h
  | bool b => simp [Json.find?] at h
  | num n => simp [Json.find?] at h
  | str t => simp [Json.find?] at h
  | arr xs => simp [Json.find?] at h

/-- An extraction pass leaves a buffer from which a further pass extracts
nothing. -/
theorem extract_stable (buffer : List Char) :
    extract_complete_json_values ((extract_complete_json_values buffer).2) =
      ([], (extract_complete_json_values buffer).2) := by
  rw [extract_eq ((extract_complete_json_values buffer).2),
    extract_residual_none buffer]

/-- The chunk loop delivers exactly the outcomes of batch-extracting the
whole stream appended to the initial buffer. -/
theorem streamLoop_flatten (reg : ToolRegistry) (concurrent : Bool)
    (chunks : List (List Char)) :
    ∀ buffer : List Char,
      streamLoop reg concurrent buffer chunks =
        ((extract_complete_json_values (buffer ++ chunks.flatten)).1).flatMap
          (blobOutcomes reg concurrent) := by
  induction chunks with
  | nil => intro buffer; simp [streamLoop]
  | cons chunk rest ih =>
    intro buffer
    rw [streamLoop]
    rw [ih]
    have h := extract_append (buffer ++ chunk) rest.flatten
    rw [List.flatten_cons, ← List.append_assoc, h]
    simp

/-- Byte-at-a-time feeding from an extract-stable buffer collects exactly
the batch extraction of the whole text. -/
theorem feedBytesLoop_eq (bs : List Char) :
    ∀ buffer : List Char,
      extract_complete_json_values buffer = ([], buffer) →
      feedBytesLoop buffer bs =
        extract_complete_json_values (buffer ++ bs) := by
  induction bs with
  | nil =>
    intro buffer hst
    rw [feedBytesLoop, List.append_nil, hst]
  | cons b rest ih =>
    intro buffer hst
    rw [feedBytesLoop]
    have hst2 := extract_stable (buffer ++ [b])
    rw [ih _ hst2]
    have h := extract_append (buffer ++ [b]) rest
    rw [show buffer ++ b :: rest = (buffer ++ [b]) ++ rest by simp, h]

/-- The inner direct-path loop acts on the first `function`-bearing
element, if any. -/
theorem handleTCLoop_eq (reg : ToolRegistry) (l : List Json) :
    handleTCLoop reg l = (firstFuncInTCs l).map (handleFuncCall reg) := by
  induction l with
  | nil => rfl
  | cons tc rest ih =>
    rw [handleTCLoop, firstFuncInTCs]
    by_cases hf : tc.contains "function" = true
    · simp [hf]
    · simp [hf, ih]

/-- The direct path is determined by the first direct call: error when none
exists, its invocation pipeline otherwise. -/
theorem handleEntriesLoop_eq (reg : ToolRegistry) (es : List Json) :
    handleEntriesLoop reg es =
      match firstDirectCallEntries es with
      | none => .error "No tool call found in response"
      | some f => handleFuncCall reg f := by
  induction es with
  | nil => rfl
  | cons choice rest ih =>
    rw [handleEntriesLoop, firstDirectCallEntries]
    by_cases hm : choice.contains "message" = true
    · simp only [hm, if_pos]
      by_cases ht : ((choice.get "message").contains "tool_calls" &&
          ((choice.get "message").get "tool_calls").isArr) = true
      · simp only [ht, if_pos]
        rw [handleTCLoop_eq]
        cases hf : firstFuncInTCs ((choice.get "message").get "tool_calls").elems with
        | none => simpa using ih
        | some f => simp
      · simp only [Bool.not_eq_true] at ht
        simp only [ht, Bool.false_eq_true, if_neg, not_false_iff]
        exact ih
    · simp only [Bool.not_eq_true] at hm
      simp only [hm, Bool.false_eq_true, if_neg, not_false_iff]
      exact ih

/-- Response-level form of `handleEntriesLoop_eq`. -/
theorem handle_eq_firstDirectCall (reg : ToolRegistry) (resp : Json) :
    handle_tool_call_response reg resp =
      match firstDirectCall resp with
      | none => .error "No tool call found in response"
      | some f => handleFuncCall reg f := by
  rw [handle_tool_call_response, firstDirectCall, handleEntriesLoop_eq]

-- ---------------------------------------------------------------------------
-- Claim theorems
-- ---------------------------------------------------------------------------

set_option maxRecDepth 40000

/-- C1: whenever discovery succeeds with calls C1…Cn (n ≥ 0, outer entry
order with each entry contributing its list-convention calls before its
singular call, as the accumulator-append property states),
`process_remote_response_and_execute` returns in both modes exactly the
per-call outcomes in that discovery order. -/
theorem dispatch_preserves_discovery_order
    (reg : ToolRegistry) (resp : Json) (calls : List (String × Json))
    (h : discoverResponse resp = .ok calls) (concurrent : Bool) :
    process_remote_response_and_execute reg resp concurrent =
      .ok (calls.map (fun c => execOne reg c.1 c.2)) ∧
    (calls.map (fun c => execOne reg c.1 c.2)).map
      (fun r => r.tool_name) = calls.map (fun c => c.1) ∧
    (∀ (out res : List (String × Json)) (es : List Json),
      discoverEntriesAcc out es = .ok res →
      ∃ t, res = out ++ t ∧ discoverEntriesAcc [] es = .ok t) := by
  refine ⟨?_, ?_, ?_⟩
  · rw [process_remote_response_and_execute, h]
    cases concurrent with
    | false => simp [runSequential_eq_map]
    | true => simp [runConcurrent_eq_runSequential, runSequential_eq_map]
  · rw [List.map_map]
    exact List.map_congr_left (fun c _ => execOne_tool_name reg c.1 c.2)
  · intro out res es hacc
    have hsplit := discoverEntriesAcc_acc es out []
    rw [List.append_nil] at hsplit
    rw [hsplit] at hacc
    cases hx : discoverEntriesAcc [] es with
    | error e => rw [hx] at hacc; simp [Except.map] at hacc
    | ok t =>
      rw [hx] at hacc
      simp only [Except.map, Except.ok.injEq] at hacc
      exact ⟨t, hacc.symm, rfl⟩

/-- Witness for C1 at a two-entry, two-convention, three-call response. -/
theorem dispatch_preserves_discovery_order_witness :
    process_remote_response_and_execute demoRegistry respMixed true =
      .ok (callsMixed.map (fun c => execOne demoRegistry c.1 c.2)) ∧
    process_remote_response_and_execute demoRegistry respMixed false =
      .ok (callsMixed.map (fun c => execOne demoRegistry c.1 c.2)) :=
  ⟨(dispatch_preserves_discovery_order demoRegistry respMixed callsMixed
      rfl true).1,
   (dispatch_preserves_discovery_order demoRegistry respMixed callsMixed
      rfl false).1⟩

/-- C2: in both modes every call of a dispatched list yields exactly the
outcome it would produce in isolation, at its own position, and a handler
failure is captured in that outcome's `error` field (null `result`) instead
of propagating. -/
theorem dispatch_isolates_failures
    (reg : ToolRegistry) (concurrent : Bool) (calls : List (String × Json))
    (i : Nat) (c : String × Json) (hc : calls[i]? = some c) :
    (if concurrent then runConcurrent reg calls
     else runSequential reg calls).length = calls.length ∧
    (if concurrent then runConcurrent reg calls
     else runSequential reg calls)[i]? = some (execOne reg c.1 c.2) ∧
    (∀ (h : ToolHandler) (e : String),
      lookupField reg.tools c.1 = some h → h c.2 = .error e →
      execOne reg c.1 c.2 =
        { tool_name := c.1, arguments := c.2, result := .null,
          error := e }) := by
  have hrun : (if concurrent then runConcurrent reg calls
      else runSequential reg calls) =
      calls.map (fun c => execOne reg c.1 c.2) := by
    cases concurrent with
    | false => simp [runSequential_eq_map]
    | true => simp [runConcurrent_eq_runSequential, runSequential_eq_map]
  refine ⟨?_, ?_, ?_⟩
  · rw [hrun, List.length_map]
  · rw [hrun, List.getElem?_map, hc, Option.map_some']
  · intro h e hl he
    simp only [execOne, ToolRegistry.invoke, hl, he]

/-- Witness for C2: a throwing first call, a second call unaffected. -/
theorem dispatch_isolates_failures_witness :
    (runConcurrent demoRegistry
      [("bad", Json.obj []), ("echo", Json.obj [])]).length = 2 ∧
    (runConcurrent demoRegistry
      [("bad", Json.obj []), ("echo", Json.obj [])])[0]? =
      some (execOne demoRegistry "bad" (Json.obj [])) ∧
    execOne demoRegistry "bad" (Json.obj []) =
      { tool_name := "bad", arguments := Json.obj [], result := Json.null,
        error := "fail" } := by
  have h := dispatch_isolates_failures demoRegistry true
    [("bad", Json.obj []), ("echo", Json.obj [])] 0 ("bad", Json.obj []) rfl
  simp only [if_true] at h
  exact ⟨h.1, h.2.1, h.2.2 failHandler "fail" rfl rfl⟩

/-- C3: an unregistered name discovered inside dispatch yields an outcome
with `error` set and a null `result` while the batch call still returns
normally, whereas a direct `invoke` of that name throws `Tool not found`
to its caller. -/
theorem unregistered_tool_outcome
    (reg : ToolRegistry) (name : String) (args : Json)
    (hn : lookupField reg.tools name = none) :
    execOne reg name args =
      { tool_name := name, arguments := args, result := .null,
        error := "Tool not found: " ++ name } ∧
    reg.invoke name args = .error ("Tool not found: " ++ name) ∧
    (∀ (resp : Json) (calls : List (String × Json)) (i : Nat)
        (concurrent : Bool),
      discoverResponse resp = .ok calls → calls[i]? = some (name, args) →
      ∃ rs, process_remote_response_and_execute reg resp concurrent =
          .ok rs ∧
        rs[i]? = some (ExecutionResult.mk name args .null
          ("Tool not found: " ++ name))) := by
  have hinv : reg.invoke name args = .error ("Tool not found: " ++ name) := by
    rw [ToolRegistry.invoke, hn]
  have hexec : execOne reg name args =
      { tool_name := name, arguments := args, result := .null,
        error := "Tool not found: " ++ name } := by
    rw [execOne, hinv]
  refine ⟨hexec, hinv, ?_⟩
  intro resp calls i concurrent hd hi
  refine ⟨calls.map (fun c => execOne reg c.1 c.2), ?_, ?_⟩
  · rw [process_remote_response_and_execute, hd]
    cases concurrent with
    | false => simp [runSequential_eq_map]
    | true => simp [runConcurrent_eq_runSequential, runSequential_eq_map]
  · rw [List.getElem?_map, hi, Option.map_some']
    rw [hexec]

/-- Witness for C3 at the unregistered name `ghost`. -/
theorem unregistered_tool_outcome_witness :
    execOne demoRegistry "ghost" (Json.obj []) =
      { tool_name := "ghost", arguments := Json.obj [], result := Json.null,
        error := "Tool not found: ghost" } ∧
    demoRegistry.invoke "ghost" (Json.obj []) =
      .error "Tool not found: ghost" :=
  ⟨(unregistered_tool_outcome demoRegistry "ghost" (Json.obj []) rfl).1,
   (unregistered_tool_outcome demoRegistry "ghost" (Json.obj []) rfl).2.1⟩

/-- C4: streaming dispatch delivers exactly the outcomes of batch-extracting
the entire concatenated stream, in order — every completed value that parses
successfully is dispatched exactly once, including a value closing exactly
at end-of-input, which the final post-exhaustion extraction pass covers. -/
theorem streaming_dispatches_each_value_once (reg : ToolRegistry)
    (concurrent : Bool) (chunks : List (List Char)) :
    process_streaming_response_and_execute reg chunks concurrent =
      ((extract_complete_json_values chunks.flatten).1).flatMap
        (blobOutcomes reg concurrent) := by
  rw [process_streaming_response_and_execute,
    streamLoop_flatten reg concurrent chunks [], List.nil_append]

/-- C5: a text whose batch extraction yields exactly one value yields that
same single value when fed one byte at a time; and inside a string literal
no character — bracket characters included, also following a backslash
escape — changes the tracked nesting depth. -/
theorem extractor_reentrancy :
    (∀ (s v rem : List Char),
      extract_complete_json_values s = ([v], rem) →
      feedBytes s = ([v], rem)) ∧
    (∀ (opener closer : Char) (st : ScanState) (c : Char),
      st.inString = true →
      (scanStep opener closer st c).depth = st.depth) := by
  constructor
  · intro s v rem h
    rw [feedBytes, feedBytesLoop_eq s [] rfl, List.nil_append, h]
  · intro opener closer st c hst
    simp only [scanStep, hst, if_true]
    split_ifs <;> rfl

/-- Witness for C5 at an object whose string value contains a closing
brace. -/
theorem extractor_reentrancy_witness :
    feedBytes braceText = ([braceText], []) ∧
    (scanStep '{' '}' ⟨1, true, false⟩ '}').depth = 1 :=
  ⟨extractor_reentrancy.1 braceText braceText [] rfl,
   extractor_reentrancy.2 '{' '}' ⟨1, true, false⟩ '}' rfl⟩

/-- C6: after any extraction pass the residual buffer contains no completed
top-level value (a further pass extracts nothing and leaves it unchanged);
and a buffer holding no opener character yields an empty result with the
buffer unchanged byte for byte. -/
theorem extractor_buffer_invariant :
    (∀ buffer : List Char,
      extract_complete_json_values
          ((extract_complete_json_values buffer).2) =
        ([], (extract_complete_json_values buffer).2)) ∧
    (∀ buffer : List Char,
      (∀ c ∈ buffer, ¬(c = '{' ∨ c = '[')) →
      extract_complete_json_values buffer = ([], buffer)) := by
  constructor
  · exact extract_stable
  · intro buffer h
    rw [extract_eq, extractStep_no_opener buffer h]

/-- Witness for C6 at a pure-noise buffer. -/
theorem extractor_buffer_invariant_witness :
    extract_complete_json_values "plain noise, no opener".data =
      ([], "plain noise, no opener".data) :=
  extractor_buffer_invariant.2 "plain noise, no opener".data (by decide)

/-- C7 counterexample: with `echo` registered (and succeeding on empty
arguments), a call whose textual arguments do not parse makes the direct
path `handle_tool_call_response` propagate the parse failure to its caller
instead of substituting an empty mapping. -/
theorem arguments_parse_failure_counterexample :
    handle_tool_call_response demoRegistry respBadArgs =
      .error "parse_error: malformed arguments text" ∧
    demoRegistry.invoke "echo" (Json.obj []) =
      .ok (Json.obj [("echoed", Json.null)]) :=
  ⟨rfl, rfl⟩

/-- C7 amended: in the normalizer (`parse_function_arguments`, used by the
batch and streaming discovery entry points) a textual-arguments parse
failure is substituted with an empty mapping and never propagated, while
the direct path `handle_tool_call_response` propagates the parse failure
of its unguarded argument parse. -/
theorem arguments_parse_failure_amended :
    (∀ (func : Json) (s : String),
      func.find? "arguments" = some (.str s) → parseJson s.data = none →
      parse_function_arguments func = .obj []) ∧
    (∀ (reg : ToolRegistry) (resp func : Json) (nm s : String),
      firstDirectCall resp = some func →
      func.find? "name" = some (.str nm) →
      func.find? "arguments" = some (.str s) →
      parseJson s.data = none →
      handle_tool_call_response reg resp =
        .error "parse_error: malformed arguments text") := by
  constructor
  · intro func s hf hp
    simp only [parse_function_arguments, hf, hp]
  · intro reg resp func nm s hfirst hnm hargs hp
    rw [handle_eq_firstDirectCall, hfirst]
    have hv1 := valueStr_of_find_str "" hnm
    have hv2 := valueStr_of_find_str "\x7b\x7d" hargs
    simp only [handleFuncCall, hv1, hv2, hp]

/-- Witness for C7 amended at `arguments = "not json"`. -/
theorem arguments_parse_failure_amended_witness :
    parse_function_arguments (Json.obj [("name", Json.str "echo"),
      ("arguments", Json.str "not json")]) = Json.obj [] ∧
    handle_tool_call_response demoRegistry respBadArgs =
      .error "parse_error: malformed arguments text" :=
  ⟨arguments_parse_failure_amended.1 (Json.obj [("name", Json.str "echo"),
      ("arguments", Json.str "not json")]) "not json" rfl rfl,
   arguments_parse_failure_amended.2 demoRegistry respBadArgs
     (Json.obj [("name", Json.str "echo"),
       ("arguments", Json.str "not json")]) "echo" "not json" rfl rfl rfl rfl⟩

/-- C8 counterexample: registering `t` a second time does not overwrite —
`invoke` still runs the first handler (returning 1), not the most recently
registered one (which returns 2). -/
theorem reregistration_counterexample :
    regTwice.invoke "t" (Json.obj []) = .ok (Json.num 1) ∧
    handlerTwo (Json.obj []) = .ok (Json.num 2) ∧
    regTwice.invoke "t" (Json.obj []) ≠ .ok (Json.num 2) := by
  refine ⟨rfl, rfl, ?_⟩
  intro hne
  have h2 : (Except.ok (Json.num 1) : Except String Json) =
      .ok (Json.num 2) := hne
  injection h2 with h3
  injection h3 with h4
  exact absurd h4 (by decide)

/-- C8 amended: `register_tool` uses `std::map::emplace`, so a second
registration under the same name is a silent no-op — handler and schema
keep their first-registered values and `invoke` runs the first handler. -/
theorem reregistration_keeps_first_amended
    (reg : ToolRegistry) (name : String) (h1 h2 : ToolHandler)
    (s1 s2 args : Json)
    (ht : lookupField reg.tools name = none)
    (hs : lookupField reg.schemas name = none) :
    register_tool (register_tool reg name h1 s1) name h2 s2 =
      register_tool reg name h1 s1 ∧
    (register_tool (register_tool reg name h1 s1) name h2 s2).invoke name
      args = h1 args := by
  have htl : lookupField (mapEmplace reg.tools name h1) name = some h1 := by
    rw [mapEmplace, ht, lookupField_append _ ht]
    simp [lookupField]
  have hsl : lookupField (mapEmplace reg.schemas name s1) name = some s1 := by
    rw [mapEmplace, hs, lookupField_append _ hs]
    simp [lookupField]
  have e1 : mapEmplace (mapEmplace reg.tools name h1) name h2 =
      mapEmplace reg.tools name h1 := by
    rw [mapEmplace, htl]
  have e2 : mapEmplace (mapEmplace reg.schemas name s1) name s2 =
      mapEmplace reg.schemas name s1 := by
    rw [mapEmplace, hsl]
  constructor
  · simp only [register_tool, e1, e2]
  · rw [ToolRegistry.invoke]
    rw [show (register_tool (register_tool reg name h1 s1) name h2
        s2).tools = mapEmplace (mapEmplace reg.tools name h1) name h2
      from rfl]
    rw [e1, htl]

/-- Witness for C8 amended at the two-handler scenario. -/
theorem reregistration_keeps_first_witness :
    register_tool (register_tool ⟨[], []⟩ "t" handlerOne (Json.str "s1"))
        "t" handlerTwo (Json.str "s2") =
      register_tool ⟨[], []⟩ "t" handlerOne (Json.str "s1") ∧
    regTwice.invoke "t" (Json.obj []) = handlerOne (Json.obj []) := by
  have h := reregistration_keeps_first_amended ⟨[], []⟩ "t" handlerOne
    handlerTwo (Json.str "s1") (Json.str "s2") (Json.obj []) rfl rfl
  exact ⟨h.1, h.2⟩

/-- C9: when the direct path finds no tool call it raises the hard
`No tool call found in response` failure to its caller and never returns a
result. -/
theorem no_call_found_hard_failure (reg : ToolRegistry) (resp : Json)
    (h : firstDirectCall resp = none) :
    handle_tool_call_response reg resp =
      .error "No tool call found in response" ∧
    ∀ j : Json, handle_tool_call_response reg resp ≠ .ok j := by
  have he : handle_tool_call_response reg resp =
      .error "No tool call found in response" := by
    rw [handle_eq_firstDirectCall, h]
  refine ⟨he, fun j hj => ?_⟩
  rw [he] at hj
  exact Except.noConfusion hj

/-- Witness for C9 at a `delta`-only response. -/
theorem no_call_found_hard_failure_witness :
    handle_tool_call_response demoRegistry respDeltaOnly =
      .error "No tool call found in response" :=
  (no_call_found_hard_failure demoRegistry respDeltaOnly rfl).1

/-- C10: the direct path acts on at most one call — the first
`function`-bearing `tool_calls` element under a `message`-bearing entry —
running exactly its name/arguments/invoke pipeline; entries without
`message` (in particular `delta` entries) are skipped, as are messages
without a `tool_calls` field (in particular singular `function_call`
messages), and when no such call exists the no-call-found failure is
raised. -/
theorem direct_path_first_message_call :
    (∀ (reg : ToolRegistry) (resp func : Json),
      firstDirectCall resp = some func →
      handle_tool_call_response reg resp = handleFuncCall reg func) ∧
    (∀ (reg : ToolRegistry) (resp : Json),
      firstDirectCall resp = none →
      handle_tool_call_response reg resp =
        .error "No tool call found in response") ∧
    (∀ (reg : ToolRegistry) (choice : Json) (es : List Json),
      choice.contains "message" = false →
      handleEntriesLoop reg (choice :: es) = handleEntriesLoop reg es) ∧
    (∀ (reg : ToolRegistry) (choice : Json) (es : List Json),
      (choice.get "message").contains "tool_calls" = false →
      handleEntriesLoop reg (choice :: es) = handleEntriesLoop reg es) := by
  refine ⟨?_, ?_, ?_, ?_⟩
  · intro reg resp func hf
    rw [handle_eq_firstDirectCall, hf]
  · intro reg resp hf
    rw [handle_eq_firstDirectCall, hf]
  · intro reg choice es hm
    rw [handleEntriesLoop]
    simp [hm]
  · intro reg choice es htc
    rw [handleEntriesLoop]
    by_cases hm : choice.contains "message" = true
    · simp [hm, htc]
    · simp [hm]

/-- Witness for C10: the singular-only and `delta`-only responses raise
no-call-found, and the mixed response runs exactly the first
`message.tool_calls` call. -/
theorem direct_path_first_message_call_witness :
    handle_tool_call_response demoRegistry respSingularOnly =
      .error "No tool call found in response" ∧
    handle_tool_call_response demoRegistry respDeltaOnly =
      .error "No tool call found in response" ∧
    handle_tool_call_response demoRegistry respMixed =
      handleFuncCall demoRegistry (Json.obj [("name", Json.str "echo"),
        ("arguments", Json.str "\x7b\"msg\":\"hi\"\x7d")]) :=
  ⟨direct_path_first_message_call.2.1 demoRegistry respSingularOnly rfl,
   direct_path_first_message_call.2.1 demoRegistry respDeltaOnly rfl,
   direct_path_first_message_call.1 demoRegistry respMixed
     (Json.obj [("name", Json.str "echo"),
       ("arguments", Json.str "\x7b\"msg\":\"hi\"\x7d")]) rfl⟩
